import Mathlib

/-!
Verification of the superfast-copy-util core (parallel scanner + parallel
copy engine) against its natural-language specification.

The Go sources are shallowly embedded:

* `Copier` models `copier/copier.go`: the filesystem is an association list
  from paths (lists of components) to byte lists plus a list of directory
  paths; `CopyFilesParallel`, `ensureAllDirectories`, `copyWorker`,
  `copySingleFile`, `copyFileContent` become pure state-passing functions.
  The worker pool is sequentialized: workers partition the file queue and
  update the shared aggregate under one mutex, so the aggregate trace of a
  run is the trace of a sequential fold over the attempted files; the
  claims settled here (aggregate counters, per-file results, per-file
  filesystem effects) are schedule-invariant.
* Cancellation (`atomic.StoreInt32(&c.canceled, 1)` / `atomic.LoadInt32`)
  is modelled by a monotone flag: `cancelAt = some k` means the first `k`
  flag reads return false and every later read returns true (`none` means
  the flag is never set).  Each flag read is counted in the state.
* Channels are modelled as queues: a buffered channel send that the code
  performs unconditionally (`ch <- v`) is a blocking send, which always
  delivers (the consumer eventually drains), so it is an append; a
  `select`/`default` send (`trySend`) appends only when the buffer has
  space and otherwise drops the value.
* `Scanner` models `scanner/scanner.go`: the directory tree is an
  inductive tree whose nodes carry the error behaviour of `os.ReadDir` /
  `os.Lstat`; the worker-pool traversal is sequentialized depth-first
  (the code uses a shared FIFO queue; the emitted-record count and the
  error-attempt count are schedule-invariant).
* Go `int64` counters only ever start at zero and are incremented, so they
  are modelled as `Nat` (no overflow in any reachable range).
  `float64` speed values are modelled as exact rationals; the concrete
  inputs used in counterexamples are exactly representable in `float64`.
-/

namespace SCU

/-- A filesystem path, as a list of components. -/
abbrev Path := List String

/-- A bounded channel buffer: capacity plus current contents.  The list is
the sequence of values the consumer will receive. -/
structure BQueue (α : Type) where
  cap : Nat
  buf : List α
deriving DecidableEq

/-- A non-blocking send (`select` with a `default` branch in the Go code):
the value is appended when the buffer has space and silently dropped
otherwise. -/
def trySend {α : Type} (q : BQueue α) (x : α) : BQueue α :=
  if q.buf.length < q.cap then ⟨q.cap, q.buf ++ [x]⟩ else q

/-- A blocking send (`ch <- v` with no `default` branch): the producer
waits until space is available, so the value is always delivered. -/
def sendB {α : Type} (q : BQueue α) (x : α) : BQueue α :=
  ⟨q.cap, q.buf ++ [x]⟩

/-- Reads of the monotone cancellation flag: `cancelAt = some k` means the
flag is observed false on the first `k` reads and true afterwards;
`none` means `Cancel` is never called. -/
def flagRead (cancelAt : Option Nat) (t : Nat) : Bool :=
  match cancelAt with
  | none => false
  | some k => decide (k ≤ t)

end SCU

namespace Copier

open SCU

/-- The filesystem visible to the copier: file contents keyed by path
(first match wins, so a write shadows older entries) and the set of
existing directories. -/
structure FS where
  files : List (Path × List Nat)
  dirs : List Path
deriving DecidableEq

/-- First-match association-list lookup (the content of the file at `p`,
or `none` when no such file exists). -/
def readFiles : List (Path × List Nat) → Path → Option (List Nat)
  | [], _ => none
  | (k, v) :: rest, p => if k = p then some v else readFiles rest p

/-- Content of the file at `p`, if any. -/
def FS.read (fs : FS) (p : Path) : Option (List Nat) :=
  readFiles fs.files p

/-- Create/overwrite the file at `p` with content `v` (`os.Create` plus
the writes). -/
def FS.write (fs : FS) (p : Path) (v : List Nat) : FS :=
  { fs with files := (p, v) :: fs.files }

/-- `os.MkdirAll`: create the directory `p` together with all of its
ancestors; idempotent. -/
def FS.mkdirAll (fs : FS) (p : Path) : FS :=
  { fs with dirs := p.inits ++ fs.dirs }

/-- The aggregate progress struct `CopyProgress` of `copier.go` (the
`CurrentFile`, `Speed`, `ElapsedTime`, `RemainingTime` fields are derived
telemetry and are not part of the counter state; `CurrentFile` is in fact
never assigned by the code). -/
structure CopyProgress where
  completedFiles : Nat
  completedSize : Nat
  totalFiles : Nat
  totalSize : Nat
  failedFiles : Nat
  skippedFiles : Nat
deriving DecidableEq

/-- The error cause recorded in a `CopyResult`.  Disk-level read/write
faults are not modelled; the only mid-copy failure in the embedding is
cancellation. -/
inductive CopyErr where
  | relFail
  | statFail
  | canceled
deriving DecidableEq

/-- `CopyResult` of `copier.go`. -/
structure CopyResult where
  filePath : Path
  success : Bool
  size : Nat
  err : Option CopyErr
deriving DecidableEq

/-- The configuration of one `Copier` (source root, target root, worker
buffer size in bytes, and the cancellation schedule). -/
structure Config where
  sourceRoot : Path
  targetRoot : Path
  bufSize : Nat
  cancelAt : Option Nat
deriving DecidableEq

/-- The destination path mirroring the source path `p`:
`filepath.Join(targetDir, rel)` where `rel = filepath.Rel(sourceDir, p)`. -/
def mirror (cfg : Config) (p : Path) : Path :=
  cfg.targetRoot ++ p.drop cfg.sourceRoot.length

/-- `filepath.Rel(root, p)` restricted to paths below the root: returns
the relative remainder when `root` is a prefix of `p` and fails
otherwise.  (For a path outside the root the spec treats the relative
path computation as a hard per-file error; no claim exercises the
`..`-escaping behaviour of the Go function.) -/
def fpRel (root p : Path) : Option Path :=
  if root <+: p then some (p.drop root.length) else none

/-- The chunked copy loop of `copyFileContent` (lines 266-282): before
each read the cancellation flag is checked (`t` counts flag reads so
far); a read either yields the next `bufSize`-byte chunk, which is
appended to the destination, or reports end of file.  Returns the final
destination content, whether the loop completed, and the updated read
count.  Callers always pass `bufSize ≥ 1` (`copyWorker` normalizes the
buffer size), for which `max 1 bufSize = bufSize`. -/
def copyContentLoop (bufSize : Nat) (cancelAt : Option Nat) :
    Nat → List Nat → List Nat → List Nat × Bool × Nat
  | t, src, dst =>
    if flagRead cancelAt t then (dst, false, t + 1)
    else
      match src with
      | [] => (dst, true, t + 1)
      | x :: rest =>
        copyContentLoop bufSize cancelAt (t + 1)
          ((x :: rest).drop (max 1 bufSize)) (dst ++ (x :: rest).take (max 1 bufSize))
termination_by _ src _ => src.length
decreasing_by
  simp only [List.length_drop, List.length_cons]
  have hmax : 1 ≤ max 1 bufSize := Nat.le_max_left 1 bufSize
  omega

/-- The output of copying one file: the updated filesystem, the emitted
`CopyResult`, and the updated flag-read count. -/
structure StepOut where
  fs : FS
  res : CopyResult
  checks : Nat

/-- `copySingleFile` (lines 202-250): compute the relative path, create
the destination's parent directory, stat the source, then stream the
content (`copyFileContent`, which first truncates the destination via
`os.Create`).  On a mid-copy cancellation the partially written
destination content is left in place. -/
def copySingleFile (cfg : Config) (fs : FS) (t : Nat) (p : Path) : StepOut :=
  match fpRel cfg.sourceRoot p with
  | none => ⟨fs, ⟨p, false, 0, some CopyErr.relFail⟩, t⟩
  | some rel =>
    let dst := cfg.targetRoot ++ rel
    let fs1 := fs.mkdirAll dst.dropLast
    match fs1.read p with
    | none => ⟨fs1, ⟨p, false, 0, some CopyErr.statFail⟩, t⟩
    | some content =>
      let b := if cfg.bufSize = 0 then 1048576 else cfg.bufSize
      let out := copyContentLoop b cfg.cancelAt t content []
      let fs2 := fs1.write dst out.1
      if out.2.1 then ⟨fs2, ⟨p, true, content.length, none⟩, out.2.2⟩
      else ⟨fs2, ⟨p, false, content.length, some CopyErr.canceled⟩, out.2.2⟩

/-- The state of a copy run: filesystem, aggregate progress struct,
results emitted so far (the result channel send is blocking, so every
emitted result is delivered), flag reads so far, and the number of files
attempted so far. -/
structure RunState where
  fs : FS
  progress : CopyProgress
  results : List CopyResult
  checks : Nat
  attempted : Nat
deriving DecidableEq

/-- One iteration of the `copyWorker` body for a file taken from the
queue (lines 185-197): copy, emit the result, and update exactly one of
the aggregate counters under the mutex. -/
def stepFile (cfg : Config) (st : RunState) (p : Path) : RunState :=
  let out := copySingleFile cfg st.fs st.checks p
  let pr :=
    if out.res.success then
      { st.progress with
          completedFiles := st.progress.completedFiles + 1
          completedSize := st.progress.completedSize + out.res.size }
    else
      { st.progress with failedFiles := st.progress.failedFiles + 1 }
  { fs := out.fs
    progress := pr
    results := st.results ++ [out.res]
    checks := out.checks
    attempted := st.attempted + 1 }

/-- The worker loop over the file queue (lines 181-198): before each file
the cancellation flag is read; once it is set the worker returns and the
remaining files are never attempted.  Also returns the list of aggregate
progress states after each attempted file (the states a progress snapshot
can observe). -/
def runFiles (cfg : Config) : RunState → List Path → RunState × List CopyProgress
  | st, [] => (st, [])
  | st, p :: ps =>
    if flagRead cfg.cancelAt st.checks then
      ({ st with checks := st.checks + 1 }, [])
    else
      let st1 := stepFile cfg { st with checks := st.checks + 1 } p
      let rest := runFiles cfg st1 ps
      (rest.1, st1.progress :: rest.2)

/-- `ensureAllDirectories` (lines 143-170): skipped when the source root
does not exist as a directory; otherwise every directory below (and
including) the source root is re-created at its mirrored path under the
target root.  (`filepath.WalkDir` enumerates exactly the directories of
the subtree; the embedding iterates over the recorded directory list.) -/
def ensureAllDirectories (cfg : Config) (fs : FS) : FS :=
  if cfg.sourceRoot ∈ fs.dirs then
    (fs.dirs.filter fun d => decide (cfg.sourceRoot <+: d)).foldl
      (fun a d => a.mkdirAll (cfg.targetRoot ++ d.drop cfg.sourceRoot.length)) fs
  else fs

/-- Total size of the file at `p` as reported by `os.Stat`, counting 0
when the stat fails (`CopyFilesParallel` lines 100-105 skip stat
failures when accumulating the total size). -/
def statSize (fs : FS) (p : Path) : Nat :=
  ((fs.read p).map List.length).getD 0

/-- The zero-initialized run state over filesystem `fs`. -/
def initState (fs : FS) : RunState :=
  ⟨fs, ⟨0, 0, 0, 0, 0, 0⟩, [], 0, 0⟩

/-- The run state just after the pre-pass of `CopyFilesParallel` (lines
96-110): the destination skeleton has been created and the totals have
been set under the mutex. -/
def startState (cfg : Config) (fs0 : FS) (files : List Path) : RunState :=
  { initState (ensureAllDirectories cfg fs0) with
      progress :=
        { completedFiles := 0, completedSize := 0
          totalFiles := files.length
          totalSize := files.foldl
            (fun a f => a + statSize (ensureAllDirectories cfg fs0) f) 0
          failedFiles := 0, skippedFiles := 0 } }

/-- The observable outcome of `CopyFilesParallel`: final state, the trace
of aggregate progress states (initial state after the totals are set,
then the state after each attempted file), whether the final non-blocking
progress send was attempted, the errors sent on the error channel
(`copier.go` never sends on `errCh`), and whether the three channels were
closed. -/
structure RunOut where
  state : RunState
  trace : List CopyProgress
  finalSendAttempted : Bool
  errorsSent : List String
  closed : Bool
deriving DecidableEq

/-- `CopyFilesParallel` (lines 88-139): with an empty file list the
goroutine closes the channels and returns at once (lines 92-94), before
`ensureAllDirectories`, before the totals are set and before the monitor
starts; otherwise it pre-creates the directory skeleton, sets the totals,
runs the workers over the queue and finally attempts the non-blocking
final progress send. -/
def runCopy (cfg : Config) (fs0 : FS) (files : List Path) : RunOut :=
  if files.isEmpty then ⟨initState fs0, [], false, [], true⟩
  else
    let st0 := startState cfg fs0 files
    let r := runFiles cfg st0 files
    ⟨r.1, st0.progress :: r.2, true, [], true⟩

/-- `sendFinalProgress` (lines 331-347): the final aggregate snapshot is
sent with a `select`/`default`, i.e. non-blocking, send.  (The scanner's
`sendFinalProgress`, scanner.go lines 221-235, is the same pattern.) -/
def sendFinalProgress (q : BQueue CopyProgress) (pr : CopyProgress) :
    BQueue CopyProgress :=
  trySend q pr

end Copier

namespace Scanner

open SCU

mutual
/-- A directory tree together with the I/O behaviour of the scan that
visits it: a file entry carries its size and whether `os.Lstat` on it
fails; a directory entry carries whether `os.ReadDir` on it fails, and
its entries. -/
inductive FTree where
  | file (name : String) (size : Nat) (statErr : Bool) : FTree
  | dir (name : String) (readErr : Bool) (entries : FList) : FTree
/-- A list of sibling entries of a directory. -/
inductive FList where
  | nil : FList
  | cons (hd : FTree) (tl : FList) : FList
end

mutual
/-- Number of nodes of a tree (termination measure). -/
def sizeT : FTree → Nat
  | .file _ _ _ => 1
  | .dir _ _ es => 1 + sizeL es
/-- Number of nodes of an entry list (termination measure). -/
def sizeL : FList → Nat
  | .nil => 0
  | .cons t tl => sizeT t + sizeL tl
end

/-- `FileInfo` of `scanner.go`: path, size (0 unless size collection is
enabled) and parent directory. -/
structure FileInfo where
  path : List String
  size : Nat
  dir : List String
deriving DecidableEq

/-- The observable scanner output state: the records delivered on the
file channel (its send is blocking, so every emitted record is
delivered), the bounded error channel, and the number of error sends the
workers attempted. -/
structure ScanAcc where
  records : List FileInfo
  errQ : BQueue String
  errAttempts : Nat
deriving DecidableEq

/-- Payload of an `os.ReadDir` failure report. -/
def errListing : String := "readdir failed"

/-- Payload of an `os.Lstat` failure report. -/
def errStat : String := "lstat failed"

/-- Error emission (scanner.go lines 112-115 and 136-139): a
`select`/`default`, i.e. non-blocking drop-if-full, send into the error
channel.  The attempt counter records that a failure occurred. -/
def pushErr (acc : ScanAcc) (e : String) : ScanAcc :=
  { acc with errQ := trySend acc.errQ e, errAttempts := acc.errAttempts + 1 }

/-- File-record emission (scanner.go line 154): an unconditional blocking
send into the file channel — always delivered. -/
def pushRec (acc : ScanAcc) (r : FileInfo) : ScanAcc :=
  { acc with records := acc.records ++ [r] }

/-- The worker entry loop (scanner.go lines 104-160), sequentialized: for
each entry of the directory at path `p`: a file is emitted as a
`FileInfo` (after an optional `os.Lstat` when `cs`, whose failure skips
the file and reports an error); a subdirectory is queued and eventually
listed — a listing failure reports an error and skips the subtree.
Subtrees are processed depth-first here; the code's FIFO queue order
differs, but the record count and error-attempt count are
schedule-invariant.  Cancellation is not modelled (the claims about the
scanner assume a run without cancellation). -/
def scanL (cs : Bool) : List String → FList → ScanAcc → ScanAcc
  | _, .nil, acc => acc
  | p, .cons (.file n sz se) tl, acc =>
    if cs && se then scanL cs p tl (pushErr acc errStat)
    else scanL cs p tl (pushRec acc ⟨p ++ [n], if cs then sz else 0, p⟩)
  | p, .cons (.dir n re es) tl, acc =>
    if re then scanL cs p tl (pushErr acc errListing)
    else scanL cs p tl (scanL cs (p ++ [n]) es acc)
termination_by _ l _ => sizeL l
decreasing_by
  all_goals simp only [sizeL, sizeT]
  all_goals omega

/-- `ScanDirectory` (scanner.go lines 67-176) run to completion without
cancellation on the tree rooted at `rootPath`: the root directory is
seeded into the queue; a root listing failure reports one error and ends
the scan, otherwise the workers traverse the tree.  `cap` is the error
channel capacity (`SCANNER_ERR_BUF`), `cs` the size-collection option
(`SCANNER_COLLECT_SIZE`). -/
def scanRun (cs : Bool) (cap : Nat) (rootPath : List String)
    (rootErr : Bool) (entries : FList) : ScanAcc :=
  if rootErr then pushErr ⟨[], ⟨cap, []⟩, 0⟩ errListing
  else scanL cs rootPath entries ⟨[], ⟨cap, []⟩, 0⟩

/-- Number of regular files in a tree (directories excluded; no
hidden-file filtering exists in the code, so every file counts). -/
def countFilesL : FList → Nat
  | .nil => 0
  | .cons (.file _ _ _) tl => 1 + countFilesL tl
  | .cons (.dir _ _ es) tl => countFilesL es + countFilesL tl
termination_by l => sizeL l
decreasing_by
  all_goals simp only [sizeL, sizeT]
  all_goals omega

/-- Whether every `os.ReadDir` and `os.Lstat` in the tree succeeds. -/
def errFreeL : FList → Bool
  | .nil => true
  | .cons (.file _ _ se) tl => !se && errFreeL tl
  | .cons (.dir _ re es) tl => !re && (errFreeL es && errFreeL tl)
termination_by l => sizeL l
decreasing_by
  all_goals simp only [sizeL, sizeT]
  all_goals omega

/-- Number of `FileRecord`s the workers emit on the tree (files skipped
by a failed stat or inside a subtree whose listing failed are not
emitted).  This count does not depend on any channel capacity. -/
def recCount (cs : Bool) : FList → Nat
  | .nil => 0
  | .cons (.file _ _ se) tl => (if cs && se then 0 else 1) + recCount cs tl
  | .cons (.dir _ re es) tl => (if re then 0 else recCount cs es) + recCount cs tl
termination_by l => sizeL l
decreasing_by
  all_goals simp only [sizeL, sizeT]
  all_goals omega

/-- The scan progress struct `Progress` of `scanner.go`. `ElapsedTime`
and `Speed` are modelled as exact rationals (seconds, files/second). -/
structure SProgress where
  totalFiles : Nat
  totalSize : Nat
  elapsedTime : ℚ
  speed : ℚ
deriving DecidableEq

/-- One sample of the atomic scan counters at a monitor tick: counter
values and elapsed time at that tick. -/
structure Sample where
  files : Nat
  size : Nat
  elapsed : ℚ
deriving DecidableEq

/-- The snapshot `monitorProgress` builds on one tick (scanner.go lines
201-215): the sampled counters, the elapsed time, and the speed
`totalFiles / elapsed` (left zero when no time has elapsed). -/
def mkSnapshot (s : Sample) : SProgress :=
  ⟨s.files, s.size, s.elapsed,
    if 0 < s.elapsed then (s.files : ℚ) / s.elapsed else 0⟩

/-- The sequence of snapshots emitted over a sequence of tick samples. -/
def snapshots (l : List Sample) : List SProgress :=
  l.map mkSnapshot

/-- A sample sequence that can arise within one scan: the atomic counters
only ever increase and time moves forward. -/
def ValidSamples (l : List Sample) : Prop :=
  List.Chain' (fun a b => a.files ≤ b.files ∧ a.size ≤ b.size ∧ a.elapsed ≤ b.elapsed) l

/-- Field-wise order on consecutive snapshots as the claim states it:
every field, the derived speed included, is non-decreasing. -/
def SnapLE (s1 s2 : SProgress) : Prop :=
  s1.totalFiles ≤ s2.totalFiles ∧ s1.totalSize ≤ s2.totalSize ∧
    s1.elapsedTime ≤ s2.elapsedTime ∧ s1.speed ≤ s2.speed

/-- Field-wise order on consecutive snapshots restricted to the counter
and elapsed fields (the speed field excluded). -/
def SnapCounterLE (s1 s2 : SProgress) : Prop :=
  s1.totalFiles ≤ s2.totalFiles ∧ s1.totalSize ≤ s2.totalSize ∧
    s1.elapsedTime ≤ s2.elapsedTime

end Scanner

/-! ## Shared helper lemmas -/

namespace Copier

open SCU

/-- Comparability of two prefixes of the same list. -/
theorem pfx_or {α : Type} {l1 l2 l3 : List α} (h1 : l1 <+: l3) (h2 : l2 <+: l3) :
    l1 <+: l2 ∨ l2 <+: l1 :=
  List.prefix_or_prefix_of_prefix h1 h2

/-- A list is a prefix of itself followed by anything. -/
theorem pfx_app {α : Type} (l1 l2 : List α) : l1 <+: l1 ++ l2 :=
  List.prefix_append l1 l2

/-- `mkdirAll` creates the requested directory. -/
theorem mkdirAll_mem_self (fs : FS) (p : Path) : p ∈ (fs.mkdirAll p).dirs := by
  simp [FS.mkdirAll, List.mem_inits]

/-- `mkdirAll` never removes a directory. -/
theorem mkdirAll_mono (fs : FS) (p q : Path) (h : q ∈ fs.dirs) :
    q ∈ (fs.mkdirAll p).dirs := by
  simp [FS.mkdirAll]
  exact Or.inr h

/-- `mkdirAll` does not touch file contents. -/
theorem read_mkdirAll (fs : FS) (p q : Path) : (fs.mkdirAll p).read q = fs.read q := rfl

/-- Reading back a freshly written file. -/
theorem read_write_self (fs : FS) (p : Path) (v : List Nat) :
    (fs.write p v).read p = some v := by
  simp [FS.write, FS.read, readFiles]

/-- Writing one file leaves every other path unchanged. -/
theorem read_write_other (fs : FS) (p q : Path) (v : List Nat) (h : q ≠ p) :
    (fs.write p v).read q = fs.read q := by
  simp [FS.write, FS.read, readFiles]
  intro he
  exact absurd he.symm h

/-- Folding `mkdirAll` over a path list does not touch file contents. -/
theorem foldl_mkdirAll_files (f : Path → Path) :
    ∀ (l : List Path) (a : FS), (l.foldl (fun a d => a.mkdirAll (f d)) a).files = a.files := by
  intro l
  induction l with
  | nil => intro a; rfl
  | cons d rest ih => intro a; exact ih (a.mkdirAll (f d))

/-- Folding `mkdirAll` over a path list never removes a directory. -/
theorem foldl_mkdirAll_mono (f : Path → Path) :
    ∀ (l : List Path) (a : FS) (q : Path), q ∈ a.dirs →
      q ∈ (l.foldl (fun a d => a.mkdirAll (f d)) a).dirs := by
  intro l
  induction l with
  | nil => intro a q h; exact h
  | cons d rest ih => intro a q h; exact ih _ _ (mkdirAll_mono _ _ _ h)

/-- Folding `mkdirAll` over a path list creates the image of every listed
path. -/
theorem foldl_mkdirAll_mem (f : Path → Path) :
    ∀ (l : List Path) (a : FS) (d : Path), d ∈ l →
      f d ∈ (l.foldl (fun a d => a.mkdirAll (f d)) a).dirs := by
  intro l
  induction l with
  | nil => intro a d h; cases h
  | cons x rest ih =>
    intro a d h
    cases h with
    | head => exact foldl_mkdirAll_mono f rest _ _ (mkdirAll_mem_self _ _)
    | tail _ h2 => exact ih _ _ h2

/-- `ensureAllDirectories` does not touch file contents. -/
theorem ensureAll_read (cfg : Config) (fs : FS) (p : Path) :
    (ensureAllDirectories cfg fs).read p = fs.read p := by
  unfold ensureAllDirectories
  split
  · unfold FS.read
    rw [foldl_mkdirAll_files]
  · rfl

/-- `ensureAllDirectories` creates the mirror of every directory below the
source root, provided the source root itself exists as a directory. -/
theorem ensureAll_mem (cfg : Config) (fs : FS) (d : Path)
    (hroot : cfg.sourceRoot ∈ fs.dirs) (hd : d ∈ fs.dirs) (hpre : cfg.sourceRoot <+: d) :
    cfg.targetRoot ++ d.drop cfg.sourceRoot.length ∈ (ensureAllDirectories cfg fs).dirs := by
  unfold ensureAllDirectories
  rw [if_pos hroot]
  exact foldl_mkdirAll_mem _ _ _ _ (by simp [List.mem_filter, hd, hpre])

/-- `copySingleFile` never removes a directory. -/
theorem copySingleFile_dirs_mono (cfg : Config) (fs : FS) (t : Nat) (p q : Path)
    (h : q ∈ fs.dirs) : q ∈ (copySingleFile cfg fs t p).fs.dirs := by
  simp only [copySingleFile]
  cases hrel : fpRel cfg.sourceRoot p with
  | none => simp only [hrel]; exact h
  | some rel =>
    simp only [hrel]
    cases hread : (fs.mkdirAll (cfg.targetRoot ++ rel).dropLast).read p with
    | none => simp only [hread]; exact mkdirAll_mono _ _ _ h
    | some content =>
      simp only [hread]
      split <;> split <;> exact mkdirAll_mono _ _ _ h

/-- `stepFile` never removes a directory. -/
theorem stepFile_dirs_mono (cfg : Config) (st : RunState) (p q : Path)
    (h : q ∈ st.fs.dirs) : q ∈ (stepFile cfg st p).fs.dirs :=
  copySingleFile_dirs_mono cfg st.fs st.checks p q h

/-- The worker loop never removes a directory. -/
theorem runFiles_dirs_mono (cfg : Config) :
    ∀ (l : List Path) (st : RunState) (q : Path), q ∈ st.fs.dirs →
      q ∈ (runFiles cfg st l).1.fs.dirs := by
  intro l
  induction l with
  | nil => intro st q h; exact h
  | cons p ps ih =>
    intro st q h
    rw [runFiles]
    split
    · exact h
    · exact ih _ _ (stepFile_dirs_mono _ _ _ _ h)

end Copier

/-! ## Claim theorems -/

open SCU

/-- Example configuration: source root `s`, target root `t`, 4-byte
buffer, never canceled. -/
def cfgW : Copier.Config := ⟨["s"], ["t"], 4, none⟩

/-- Example filesystem: one file `s/f` with content `[7]`, directories
`s` and `s/a`. -/
def fsW : Copier.FS := ⟨[(["s", "f"], [7])], [["s"], ["s", "a"]]⟩

/-- C10: called with an empty file list, `CopyFilesParallel` returns
immediately after closing the channels: the filesystem is untouched (no
directory is created), no result, no progress value and no error is
emitted, and the final progress send is never attempted. -/
theorem empty_file_list_is_noop (cfg : Copier.Config) (fs : Copier.FS) :
    (Copier.runCopy cfg fs []).state.fs = fs ∧
    (Copier.runCopy cfg fs []).state.results = [] ∧
    (Copier.runCopy cfg fs []).trace = [] ∧
    (Copier.runCopy cfg fs []).errorsSent = [] ∧
    (Copier.runCopy cfg fs []).finalSendAttempted = false ∧
    (Copier.runCopy cfg fs []).closed = true := by
  refine ⟨rfl, rfl, rfl, rfl, rfl, rfl⟩

/-- C2 counterexample: a source tree whose file list is empty.  The
source root `s` and the empty directory `s/a` exist, yet after the run
`t/a` does not exist (nor does `t`): the empty-list early return of
`CopyFilesParallel` (copier.go lines 92-94) fires before
`ensureAllDirectories`, so the claim fails for an empty file list. -/
theorem empty_file_list_skips_directory_creation :
    ["s"] ∈ fsW.dirs ∧ ["s", "a"] ∈ fsW.dirs ∧
    ¬ (["t", "a"] ∈ (Copier.runCopy cfgW fsW []).state.fs.dirs) ∧
    ¬ (["t"] ∈ (Copier.runCopy cfgW fsW []).state.fs.dirs) := by
  refine ⟨by simp [fsW], by simp [fsW], by simp [Copier.runCopy, Copier.initState, fsW], by simp [Copier.runCopy, Copier.initState, fsW]⟩

/-- C2 amended: when the file list is non-empty (and the source root
exists as a directory), every directory below the source root — empty
ones included — exists at its mirrored path under the target root after
the run, because `ensureAllDirectories` pre-creates the full skeleton and
nothing ever removes a directory. -/
theorem dirs_mirrored_when_files_nonempty (cfg : Copier.Config) (fs0 : Copier.FS)
    (files : List SCU.Path) (hne : files ≠ [])
    (hroot : cfg.sourceRoot ∈ fs0.dirs) :
    ∀ d ∈ fs0.dirs, cfg.sourceRoot <+: d →
      cfg.targetRoot ++ d.drop cfg.sourceRoot.length ∈
        (Copier.runCopy cfg fs0 files).state.fs.dirs := by
  intro d hd hpre
  cases files with
  | nil => exact absurd rfl hne
  | cons f fsRest =>
    simp only [Copier.runCopy, List.isEmpty_cons, Bool.false_eq_true, if_false]
    exact Copier.runFiles_dirs_mono cfg _ _ _ (Copier.ensureAll_mem cfg fs0 d hroot hd hpre)

/-- C2 amended, witness: in the example filesystem the empty directory
`s/a` is mirrored to `t/a` once at least one file is copied. -/
theorem dirs_mirrored_when_files_nonempty_witness :
    ["t", "a"] ∈ (Copier.runCopy cfgW fsW [["s", "f"]]).state.fs.dirs := by
  have h := dirs_mirrored_when_files_nonempty cfgW fsW [["s", "f"]]
    (by simp) (by simp [cfgW, fsW]) ["s", "a"] (by simp [fsW]) (by simp [cfgW])
  simpa [cfgW] using h

/-- A stale periodic progress tick sitting unconsumed in the progress
channel buffer. -/
def prStale : Copier.CopyProgress := ⟨0, 0, 1, 1, 0, 0⟩

/-- C8 counterexample: after the one-file example run finishes, its final
aggregate progress is handed to `sendFinalProgress`, but the progress
channel (capacity 1) still holds an unconsumed tick, so the
`select`/`default` send drops the final snapshot: the buffer is unchanged
and never contains the final state, refuting "the final state is always
observable". -/
theorem final_progress_dropped_when_buffer_full :
    Copier.sendFinalProgress ⟨1, [prStale]⟩
        (Copier.runCopy cfgW fsW [["s", "f"]]).state.progress = ⟨1, [prStale]⟩ ∧
    ¬ ((Copier.runCopy cfgW fsW [["s", "f"]]).state.progress ∈
        (Copier.sendFinalProgress ⟨1, [prStale]⟩
          (Copier.runCopy cfgW fsW [["s", "f"]]).state.progress).buf) := by
  have hpr : (Copier.runCopy cfgW fsW [["s", "f"]]).state.progress =
      ⟨1, 1, 1, 1, 0, 0⟩ := by
    simp [Copier.runCopy, Copier.startState, Copier.runFiles, Copier.stepFile,
      Copier.copySingleFile, Copier.copyContentLoop, Copier.fpRel, SCU.flagRead,
      Copier.ensureAllDirectories, Copier.statSize, Copier.initState, Copier.FS.read,
      Copier.FS.write, Copier.FS.mkdirAll, Copier.readFiles, cfgW, fsW, Copier.mirror]
  rw [hpr]
  refine ⟨by simp [Copier.sendFinalProgress, SCU.trySend, prStale], ?_⟩
  simp [Copier.sendFinalProgress, SCU.trySend, prStale]

/-- C8 amended: the final snapshot is sent once after all workers finish,
with a non-blocking send: it is appended to the progress stream (as the
last value before the close) whenever the channel buffer has space, and
dropped when the buffer is full. -/
theorem final_progress_delivered_when_space (q : SCU.BQueue Copier.CopyProgress)
    (pr : Copier.CopyProgress) (h : q.buf.length < q.cap) :
    (Copier.sendFinalProgress q pr).buf = q.buf ++ [pr] := by
  simp [Copier.sendFinalProgress, SCU.trySend, h]

/-- C8 amended, witness: with one free slot the final snapshot of the
example run is delivered as the last buffered value. -/
theorem final_progress_delivered_when_space_witness :
    (Copier.sendFinalProgress ⟨2, [prStale]⟩
        (Copier.runCopy cfgW fsW [["s", "f"]]).state.progress).buf =
      [prStale] ++ [(Copier.runCopy cfgW fsW [["s", "f"]]).state.progress] :=
  final_progress_delivered_when_space ⟨2, [prStale]⟩ _ (by simp)

/-- Tick sample: ten files seen, one second elapsed. -/
def sampleA : Scanner.Sample := ⟨10, 0, 1⟩

/-- Tick sample: still ten files seen, two seconds elapsed. -/
def sampleB : Scanner.Sample := ⟨10, 0, 2⟩

/-- C9 counterexample: a scan in which ten files are discovered within
the first second and none afterwards produces the valid consecutive tick
samples `sampleA`, `sampleB`; the corresponding snapshots have speeds 10
and 5 files/sec, so the snapshot sequence is not field-wise
non-decreasing — the throughput field can decrease.  (Both divisions are
exact in `float64`, so the rational model is faithful here.) -/
theorem scan_throughput_not_monotonic :
    Scanner.ValidSamples [sampleA, sampleB] ∧
    ¬ List.Chain' Scanner.SnapLE (Scanner.snapshots [sampleA, sampleB]) := by
  constructor
  · simp [Scanner.ValidSamples, sampleA, sampleB]
  · simp [Scanner.snapshots, Scanner.mkSnapshot, sampleA, sampleB, Scanner.SnapLE,
      List.chain'_cons]

/-- C9 amended: within one scan the counter fields and the elapsed time
of consecutive progress snapshots are monotonic non-decreasing (the
atomic counters only ever grow and time moves forward); the derived
speed field is not covered by this guarantee. -/
theorem scan_counters_monotonic (l : List Scanner.Sample)
    (h : Scanner.ValidSamples l) :
    List.Chain' Scanner.SnapCounterLE (Scanner.snapshots l) := by
  unfold Scanner.snapshots
  rw [List.chain'_map]
  exact h.imp fun a b hab => ⟨hab.1, hab.2.1, hab.2.2⟩

/-- C9 amended, witness: the counter and elapsed fields are monotone
across the two example ticks. -/
theorem scan_counters_monotonic_witness :
    List.Chain' Scanner.SnapCounterLE (Scanner.snapshots [sampleA, sampleB]) :=
  scan_counters_monotonic [sampleA, sampleB]
    (by simp [Scanner.ValidSamples, sampleA, sampleB])

namespace Copier

open SCU

/-- Every outcome of `copySingleFile` reports the attempted path. -/
theorem copySingleFile_filePath (cfg : Config) (fs : FS) (t : Nat) (p : Path) :
    (copySingleFile cfg fs t p).res.filePath = p := by
  simp only [copySingleFile]
  cases hrel : fpRel cfg.sourceRoot p with
  | none => simp only [hrel]
  | some rel =>
    simp only [hrel]
    cases hread : (fs.mkdirAll (cfg.targetRoot ++ rel).dropLast).read p with
    | none => simp only [hread]
    | some content =>
      simp only [hread]
      split <;> split <;> rfl

/-- One worker iteration increments exactly one of the two counters. -/
theorem stepFile_shape (cfg : Config) (st : RunState) (p : Path) :
    ((stepFile cfg st p).progress.completedFiles = st.progress.completedFiles + 1 ∧
       (stepFile cfg st p).progress.failedFiles = st.progress.failedFiles) ∨
    ((stepFile cfg st p).progress.failedFiles = st.progress.failedFiles + 1 ∧
       (stepFile cfg st p).progress.completedFiles = st.progress.completedFiles) := by
  simp only [stepFile]
  split
  · exact Or.inl ⟨rfl, rfl⟩
  · exact Or.inr ⟨rfl, rfl⟩

/-- One worker iteration never touches the totals. -/
theorem stepFile_total (cfg : Config) (st : RunState) (p : Path) :
    (stepFile cfg st p).progress.totalFiles = st.progress.totalFiles := by
  simp only [stepFile]
  split <;> rfl

/-- One worker iteration emits exactly one result, for the attempted
file. -/
theorem stepFile_results (cfg : Config) (st : RunState) (p : Path) :
    (stepFile cfg st p).results =
      st.results ++ [(copySingleFile cfg st.fs st.checks p).res] := rfl

/-- One worker iteration attempts exactly one file. -/
theorem stepFile_attempted (cfg : Config) (st : RunState) (p : Path) :
    (stepFile cfg st p).attempted = st.attempted + 1 := rfl

/-- Counter invariant along the trace of the worker loop: as long as the
counters plus the outstanding queue length fit under `T`, every observed
aggregate state satisfies `completed + failed ≤ T` and reports total
`T`. -/
theorem runFiles_trace_bound (cfg : Config) :
    ∀ (l : List Path) (st : RunState) (T : Nat),
      st.progress.totalFiles = T →
      st.progress.completedFiles + st.progress.failedFiles + l.length ≤ T →
      ∀ pr ∈ (runFiles cfg st l).2,
        pr.completedFiles + pr.failedFiles ≤ T ∧ pr.totalFiles = T := by
  intro l
  induction l with
  | nil =>
    intro st T h1 h2 pr hpr
    simp [runFiles] at hpr
  | cons p ps ih =>
    intro st T h1 h2 pr hpr
    rw [runFiles] at hpr
    split at hpr
    · simp at hpr
    · simp only [List.mem_cons] at hpr
      have hshape := stepFile_shape cfg { st with checks := st.checks + 1 } p
      have htot := stepFile_total cfg { st with checks := st.checks + 1 } p
      cases hpr with
      | inl he =>
        subst he
        constructor
        · rcases hshape with ⟨hc, hf⟩ | ⟨hf, hc⟩ <;>
            simp only [hc, hf] <;> simp only [List.length_cons] at h2 <;> omega
        · rw [htot]; exact h1
      | inr hm =>
        refine ih (stepFile cfg { st with checks := st.checks + 1 } p) T (by rw [htot]; exact h1) ?_ pr hm
        rcases hshape with ⟨hc, hf⟩ | ⟨hf, hc⟩ <;>
          simp only [hc, hf] <;> simp only [List.length_cons] at h2 <;> omega

/-- Shape of the worker loop's final state: the attempted count grows by
at most the queue length, the emitted results are exactly one per
attempted file (in queue order), and the two counters absorb exactly one
increment per attempted file. -/
theorem runFiles_results_shape (cfg : Config) :
    ∀ (l : List Path) (st : RunState),
      st.attempted ≤ (runFiles cfg st l).1.attempted ∧
      (runFiles cfg st l).1.attempted - st.attempted ≤ l.length ∧
      ((runFiles cfg st l).1.results).map CopyResult.filePath =
        st.results.map CopyResult.filePath ++
          l.take ((runFiles cfg st l).1.attempted - st.attempted) ∧
      (runFiles cfg st l).1.progress.completedFiles +
          (runFiles cfg st l).1.progress.failedFiles =
        st.progress.completedFiles + st.progress.failedFiles +
          ((runFiles cfg st l).1.attempted - st.attempted) := by
  intro l
  induction l with
  | nil =>
    intro st
    simp [runFiles]
  | cons p ps ih =>
    intro st
    rw [runFiles]
    split
    · simp
    · simp only
      obtain ⟨ih1, ih2, ih3, ih4⟩ := ih (stepFile cfg { st with checks := st.checks + 1 } p)
      have ha : (stepFile cfg { st with checks := st.checks + 1 } p).attempted =
          st.attempted + 1 := stepFile_attempted cfg _ p
      have hr : (stepFile cfg { st with checks := st.checks + 1 } p).results =
          st.results ++ [(copySingleFile cfg st.fs (st.checks + 1) p).res] :=
        stepFile_results cfg _ p
      have hshape := stepFile_shape cfg { st with checks := st.checks + 1 } p
      have hfp : (copySingleFile cfg st.fs (st.checks + 1) p).res.filePath = p :=
        copySingleFile_filePath cfg st.fs (st.checks + 1) p
      refine ⟨by omega, by simp only [List.length_cons]; omega, ?_, ?_⟩
      · have hd : (runFiles cfg (stepFile cfg { st with checks := st.checks + 1 } p) ps).1.attempted -
            st.attempted =
            ((runFiles cfg (stepFile cfg { st with checks := st.checks + 1 } p) ps).1.attempted -
              (stepFile cfg { st with checks := st.checks + 1 } p).attempted) + 1 := by omega
        rw [hd, List.take_succ_cons, ih3, hr]
        simp [hfp]
      · have hsh :
            ((stepFile cfg { st with checks := st.checks + 1 } p).progress.completedFiles =
                st.progress.completedFiles + 1 ∧
              (stepFile cfg { st with checks := st.checks + 1 } p).progress.failedFiles =
                st.progress.failedFiles) ∨
            ((stepFile cfg { st with checks := st.checks + 1 } p).progress.failedFiles =
                st.progress.failedFiles + 1 ∧
              (stepFile cfg { st with checks := st.checks + 1 } p).progress.completedFiles =
                st.progress.completedFiles) := stepFile_shape cfg _ p
        rcases hsh with ⟨hc, hf⟩ | ⟨hf, hc⟩ <;> rw [ih4, hc, hf] <;> omega

end Copier

/-- C4: at every observable point of a copy run — the aggregate state
after the totals are set and after each attempted file, which is exactly
what any progress snapshot can read under the mutex — the invariant
`completedFiles + failedFiles ≤ totalFiles` holds, and `totalFiles`
stays fixed at the length of the file list for the whole run. -/
theorem progress_counter_invariant (cfg : Copier.Config) (fs0 : Copier.FS)
    (files : List SCU.Path) :
    ∀ pr ∈ (Copier.runCopy cfg fs0 files).trace,
      pr.completedFiles + pr.failedFiles ≤ pr.totalFiles ∧
      pr.totalFiles = files.length := by
  intro pr hpr
  cases files with
  | nil => simp [Copier.runCopy] at hpr
  | cons f fsRest =>
    simp only [Copier.runCopy, List.isEmpty_cons, Bool.false_eq_true, if_false] at hpr
    rcases List.mem_cons.mp hpr with he | hm
    · subst he
      exact ⟨Nat.zero_le _, rfl⟩
    · have h := Copier.runFiles_trace_bound cfg (f :: fsRest)
        (Copier.startState cfg fs0 (f :: fsRest)) (f :: fsRest).length rfl
        (by simp [Copier.startState, Copier.initState]) pr hm
      exact ⟨h.2 ▸ h.1, h.2⟩

/-- C4 witness: the invariant holds at the first observable state of the
example one-file run. -/
theorem progress_counter_invariant_witness :
    (⟨0, 0, 1, 1, 0, 0⟩ : Copier.CopyProgress).completedFiles +
        (⟨0, 0, 1, 1, 0, 0⟩ : Copier.CopyProgress).failedFiles ≤
      (⟨0, 0, 1, 1, 0, 0⟩ : Copier.CopyProgress).totalFiles ∧
    (⟨0, 0, 1, 1, 0, 0⟩ : Copier.CopyProgress).totalFiles = [["s", "f"]].length :=
  progress_counter_invariant cfgW fsW [["s", "f"]] ⟨0, 0, 1, 1, 0, 0⟩
    (by simp [Copier.runCopy, Copier.startState, Copier.initState, Copier.statSize,
      Copier.ensureAllDirectories, Copier.FS.read, Copier.readFiles, cfgW, fsW])

/-- C5: over any copy run, the emitted results are exactly one per
attempted file — the first `attempted` files of the queue, in order —
files never attempted (skipped after cancellation) produce no result,
and each attempt adds exactly one to exactly one of
`completedFiles`/`failedFiles` (never both, never neither). -/
theorem one_result_per_attempted_file (cfg : Copier.Config) (fs0 : Copier.FS)
    (files : List SCU.Path) :
    ((Copier.runCopy cfg fs0 files).state.results).map Copier.CopyResult.filePath =
        files.take (Copier.runCopy cfg fs0 files).state.attempted ∧
    (Copier.runCopy cfg fs0 files).state.attempted ≤ files.length ∧
    (Copier.runCopy cfg fs0 files).state.progress.completedFiles +
        (Copier.runCopy cfg fs0 files).state.progress.failedFiles =
      (Copier.runCopy cfg fs0 files).state.attempted ∧
    ∀ (st : Copier.RunState) (p : SCU.Path),
      (Copier.stepFile cfg st p).results =
          st.results ++ [(Copier.copySingleFile cfg st.fs st.checks p).res] ∧
      (Copier.copySingleFile cfg st.fs st.checks p).res.filePath = p ∧
      (((Copier.stepFile cfg st p).progress.completedFiles =
            st.progress.completedFiles + 1 ∧
          (Copier.stepFile cfg st p).progress.failedFiles = st.progress.failedFiles) ∨
        ((Copier.stepFile cfg st p).progress.failedFiles =
            st.progress.failedFiles + 1 ∧
          (Copier.stepFile cfg st p).progress.completedFiles =
            st.progress.completedFiles)) := by
  cases files with
  | nil =>
    refine ⟨?_, ?_, ?_, fun st p =>
      ⟨Copier.stepFile_results cfg st p, Copier.copySingleFile_filePath cfg st.fs st.checks p,
        Copier.stepFile_shape cfg st p⟩⟩ <;>
      simp [Copier.runCopy, Copier.initState]
  | cons f fsRest =>
    obtain ⟨h1, h2, h3, h4⟩ :=
      Copier.runFiles_results_shape cfg (f :: fsRest) (Copier.startState cfg fs0 (f :: fsRest))
    rw [show (Copier.startState cfg fs0 (f :: fsRest)).results = [] from rfl] at h3
    rw [show (Copier.startState cfg fs0 (f :: fsRest)).attempted = 0 from rfl] at h1 h2 h3 h4
    rw [show (Copier.startState cfg fs0 (f :: fsRest)).progress.completedFiles = 0 from rfl,
        show (Copier.startState cfg fs0 (f :: fsRest)).progress.failedFiles = 0 from rfl] at h4
    refine ⟨?_, ?_, ?_, fun st p =>
      ⟨Copier.stepFile_results cfg st p, Copier.copySingleFile_filePath cfg st.fs st.checks p,
        Copier.stepFile_shape cfg st p⟩⟩
    · simp only [Copier.runCopy, List.isEmpty_cons, Bool.false_eq_true, if_false]
      simpa using h3
    · simp only [Copier.runCopy, List.isEmpty_cons, Bool.false_eq_true, if_false]
      simpa using h2
    · simp only [Copier.runCopy, List.isEmpty_cons, Bool.false_eq_true, if_false]
      simpa using h4

namespace Scanner

/-- `pushErr` leaves the record stream untouched. -/
theorem pushErr_records (acc : ScanAcc) (e : String) :
    (pushErr acc e).records = acc.records := rfl

/-- Record-count lemma for the worker loop: the number of delivered
records grows by exactly `recCount`, independently of the error queue's
capacity or fill level (the file channel send is blocking and never
drops). -/
theorem scanL_records_len :
    ∀ (l : FList) (cs : Bool) (p : List String) (acc : ScanAcc),
      ((scanL cs p l acc).records).length = acc.records.length + recCount cs l := by
  suffices h : ∀ (n : Nat) (l : FList), sizeL l ≤ n → ∀ (cs : Bool) (p : List String)
      (acc : ScanAcc),
      ((scanL cs p l acc).records).length = acc.records.length + recCount cs l by
    intro l cs p acc
    exact h (sizeL l) l le_rfl cs p acc
  intro n
  induction n with
  | zero =>
    intro l hl cs p acc
    cases l with
    | nil => simp [scanL, recCount]
    | cons hd tl => cases hd <;> simp [sizeL, sizeT] at hl
  | succ n ih =>
    intro l hl cs p acc
    cases l with
    | nil => simp [scanL, recCount]
    | cons hd tl =>
      cases hd with
      | file nm sz se =>
        have htl : sizeL tl ≤ n := by simp only [sizeL, sizeT] at hl; omega
        simp only [scanL, recCount]
        by_cases hse : (cs && se) = true
        · rw [if_pos hse, if_pos hse, ih tl htl, pushErr_records]
          omega
        · rw [if_neg hse, if_neg hse, ih tl htl]
          simp [pushRec]
          omega
      | dir nm re es =>
        have htl : sizeL tl ≤ n := by simp only [sizeL, sizeT] at hl; omega
        have hes : sizeL es ≤ n := by simp only [sizeL, sizeT] at hl; omega
        simp only [scanL, recCount]
        by_cases hre : re = true
        · rw [if_pos hre, if_pos hre, ih tl htl, pushErr_records]
          omega
        · rw [if_neg hre, if_neg hre, ih tl htl, ih es hes]
          omega

/-- On an error-free tree the scan emits one record for each regular
file, whatever the size-collection setting. -/
theorem recCount_eq_countFiles :
    ∀ (l : FList), errFreeL l = true → ∀ (cs : Bool), recCount cs l = countFilesL l := by
  suffices h : ∀ (n : Nat) (l : FList), sizeL l ≤ n → errFreeL l = true →
      ∀ (cs : Bool), recCount cs l = countFilesL l by
    intro l hfree cs
    exact h (sizeL l) l le_rfl hfree cs
  intro n
  induction n with
  | zero =>
    intro l hl hfree cs
    cases l with
    | nil => simp [recCount, countFilesL]
    | cons hd tl => cases hd <;> simp [sizeL, sizeT] at hl
  | succ n ih =>
    intro l hl hfree cs
    cases l with
    | nil => simp [recCount, countFilesL]
    | cons hd tl =>
      cases hd with
      | file nm sz se =>
        have htl : sizeL tl ≤ n := by simp only [sizeL, sizeT] at hl; omega
        simp only [errFreeL, Bool.and_eq_true, Bool.not_eq_true'] at hfree
        simp only [recCount, countFilesL, hfree.1, Bool.and_false, if_false,
          Bool.false_eq_true, ih tl htl hfree.2]
      | dir nm re es =>
        have htl : sizeL tl ≤ n := by simp only [sizeL, sizeT] at hl; omega
        have hes : sizeL es ≤ n := by simp only [sizeL, sizeT] at hl; omega
        simp only [errFreeL, Bool.and_eq_true, Bool.not_eq_true'] at hfree
        simp only [recCount, countFilesL, hfree.1, if_false, Bool.false_eq_true,
          ih tl htl hfree.2.2, ih es hes hfree.2.1]

end Scanner

/-- C3: a scan that runs to completion without cancellation on a tree on
which every directory listing and stat succeeds delivers exactly one
`FileRecord` per regular file of the tree — hidden files are not treated
specially and directories are never emitted. -/
theorem scan_emits_one_record_per_file (cs : Bool) (cap : Nat)
    (rootPath : List String) (entries : Scanner.FList)
    (h : Scanner.errFreeL entries = true) :
    ((Scanner.scanRun cs cap rootPath false entries).records).length =
      Scanner.countFilesL entries := by
  simp only [Scanner.scanRun, Bool.false_eq_true, if_false]
  rw [Scanner.scanL_records_len entries cs rootPath ⟨[], ⟨cap, []⟩, 0⟩,
    Scanner.recCount_eq_countFiles entries h cs]
  simp

/-- File name used in the scanner examples. -/
def nH : String := "h"

/-- File name used in the scanner examples. -/
def nG : String := "g"

/-- Directory name used in the scanner examples. -/
def nA : String := "a"

/-- Directory name used in the scanner examples. -/
def nB : String := "b"

/-- Root path component used in the scanner examples. -/
def nR : String := "r"

/-- Example error-free tree: a file `h` (3 bytes) and a directory `a`
holding a file `g` (1 byte). -/
def treeW : Scanner.FList :=
  Scanner.FList.cons (Scanner.FTree.file nH 3 false)
    (Scanner.FList.cons
      (Scanner.FTree.dir nA false
        (Scanner.FList.cons (Scanner.FTree.file nG 1 false) Scanner.FList.nil))
      Scanner.FList.nil)

/-- C3 witness: the example tree is error-free, holds two regular files,
and its scan delivers exactly two records. -/
theorem scan_emits_one_record_per_file_witness :
    Scanner.errFreeL treeW = true ∧ Scanner.countFilesL treeW = 2 ∧
    ((Scanner.scanRun false 100 [nR] false treeW).records).length =
      Scanner.countFilesL treeW :=
  ⟨by simp [treeW, Scanner.errFreeL],
   by simp [treeW, Scanner.countFilesL],
   scan_emits_one_record_per_file false 100 [nR] treeW
     (by simp [treeW, Scanner.errFreeL])⟩

/-- Example tree with two unreadable subdirectories `a` and `b` directly
under the root. -/
def treeBad : Scanner.FList :=
  Scanner.FList.cons (Scanner.FTree.dir nA true Scanner.FList.nil)
    (Scanner.FList.cons (Scanner.FTree.dir nB true Scanner.FList.nil) Scanner.FList.nil)

/-- C7 counterexample: scanning `treeBad` with an error channel of
capacity 1 and no concurrent consumer attempts two listing-error reports
but delivers only one — the second is dropped by the `select`/`default`
send (scanner.go lines 112-115), refuting that error emission is a
blocking send that never loses a listing failure. -/
theorem listing_error_dropped_when_queue_full :
    (Scanner.scanRun false 1 [nR] false treeBad).errAttempts = 2 ∧
    ((Scanner.scanRun false 1 [nR] false treeBad).errQ.buf).length = 1 := by
  constructor <;>
    simp [Scanner.scanRun, Scanner.scanL, Scanner.pushErr, SCU.trySend, treeBad,
      Scanner.errListing]

/-- C7 amended: `FileRecord` emission uses a blocking send, so no
discovered file is ever dropped (the delivered-record count depends only
on the tree, never on a queue's fill level); directory-listing and stat
errors use the same non-blocking drop-if-full send as progress
snapshots, so an error report is delivered exactly when the error queue
has space and is dropped otherwise (while the failure is still counted
as an attempt). -/
theorem send_policy_characterization :
    (∀ (acc : Scanner.ScanAcc) (r : Scanner.FileInfo),
        (Scanner.pushRec acc r).records = acc.records ++ [r]) ∧
    (∀ (acc : Scanner.ScanAcc) (e : String),
        (Scanner.pushErr acc e).errQ.buf =
          (if acc.errQ.buf.length < acc.errQ.cap then acc.errQ.buf ++ [e]
            else acc.errQ.buf) ∧
        (Scanner.pushErr acc e).errAttempts = acc.errAttempts + 1 ∧
        (Scanner.pushErr acc e).records = acc.records) ∧
    (∀ (cs : Bool) (p : List String) (l : Scanner.FList) (acc : Scanner.ScanAcc),
        ((Scanner.scanL cs p l acc).records).length =
          acc.records.length + Scanner.recCount cs l) := by
  refine ⟨fun acc r => rfl, fun acc e => ⟨?_, rfl, rfl⟩,
    fun cs p l acc => Scanner.scanL_records_len l cs p acc⟩
  by_cases hc : acc.errQ.buf.length < acc.errQ.cap <;>
    simp [Scanner.pushErr, SCU.trySend, hc]

namespace Copier

open SCU

/-- With the cancellation flag never set, the copy loop copies the whole
source behind the destination and reports completion. -/
theorem copyContentLoop_none (b : Nat) :
    ∀ (n : Nat) (src : List Nat), src.length ≤ n → ∀ (dst : List Nat) (t : Nat),
      (copyContentLoop b none t src dst).1 = dst ++ src ∧
      (copyContentLoop b none t src dst).2.1 = true := by
  intro n
  induction n with
  | zero =>
    intro src hl dst t
    have hsrc : src = [] := List.length_eq_zero.mp (Nat.le_zero.mp hl)
    subst hsrc
    rw [copyContentLoop.eq_def]
    simp [flagRead]
  | succ n ih =>
    intro src hl dst t
    cases src with
    | nil =>
      rw [copyContentLoop.eq_def]
      simp [flagRead]
    | cons x rest =>
      rw [copyContentLoop.eq_def]
      simp only [flagRead, Bool.false_eq_true, if_false]
      have hmax : 1 ≤ max 1 b := Nat.le_max_left 1 b
      have hlen : ((x :: rest).drop (max 1 b)).length ≤ n := by
        simp only [List.length_drop, List.length_cons]
        simp only [List.length_cons] at hl
        omega
      obtain ⟨h1, h2⟩ := ih _ hlen (dst ++ (x :: rest).take (max 1 b)) (t + 1)
      refine ⟨?_, h2⟩
      rw [h1, List.append_assoc, List.take_append_drop]

/-- Under the schedule `some k`, once `k - t` more flag reads remain
before the flip and the data outlasts them, the loop writes exactly the
chunks read before the flip and then aborts with a failure, leaving the
partial destination content in place. -/
theorem copyContentLoop_cancel (b k : Nat) (hb : 1 ≤ b) :
    ∀ (i t : Nat) (src dst : List Nat), t + i = k →
      (i = 0 ∨ (i - 1) * b < src.length) →
      copyContentLoop b (some k) t src dst =
        (dst ++ src.take (i * b), false, k + 1) := by
  intro i
  induction i with
  | zero =>
    intro t src dst ht hpre
    rw [copyContentLoop.eq_def]
    have hf : flagRead (some k) t = true := by
      simp only [flagRead, decide_eq_true_eq]
      omega
    simp only [hf, if_true, Nat.zero_mul, List.take_zero, List.append_nil]
    have ht1 : t + 1 = k + 1 := by omega
    rw [ht1]
  | succ i ih =>
    intro t src dst ht hpre
    have hib : i * b < src.length := by
      rcases hpre with h0 | hlt
      · exact absurd h0 (Nat.succ_ne_zero i)
      · simpa using hlt
    cases src with
    | nil => simp at hib
    | cons x rest =>
      rw [copyContentLoop.eq_def]
      have hf : flagRead (some k) t = false := by
        simp only [flagRead, decide_eq_false_iff_not]
        omega
      have hmax : max 1 b = b := Nat.max_eq_right hb
      simp only [hf, Bool.false_eq_true, if_false, hmax]
      have hpre2 : i = 0 ∨ (i - 1) * b < ((x :: rest).drop b).length := by
        cases i with
        | zero => exact Or.inl rfl
        | succ j =>
          right
          simp only [List.length_drop, Nat.succ_sub_one]
          have hsm : (j + 1) * b = j * b + b := Nat.succ_mul j b
          have hj : j * b + b < (x :: rest).length := by rw [← hsm]; exact hib
          omega
      rw [ih (t + 1) ((x :: rest).drop b) (dst ++ (x :: rest).take b) (by omega) hpre2]
      have hmul : (i + 1) * b = b + i * b := by
        rw [Nat.succ_mul]
        omega
      rw [List.append_assoc, hmul, List.take_add]

/-- `copySingleFile` with the flag flipping after `k` total reads, the
worker's read already spent: the destination file is created, the first
`k - 1` chunks are written, the copy aborts with a `canceled` failure
carrying the stat size, and the partial destination content is left on
disk. -/
theorem copySingleFile_cancel (cfg : Config) (fs : FS) (p : Path) (src : List Nat) (k : Nat)
    (hb : 1 ≤ cfg.bufSize) (hcan : cfg.cancelAt = some k) (hk1 : 1 ≤ k)
    (hkm : (k - 1) * cfg.bufSize < src.length)
    (hpre : cfg.sourceRoot <+: p)
    (hread : fs.read p = some src) :
    copySingleFile cfg fs 1 p =
      ⟨(fs.mkdirAll (mirror cfg p).dropLast).write (mirror cfg p)
          (src.take ((k - 1) * cfg.bufSize)),
        ⟨p, false, src.length, some CopyErr.canceled⟩, k + 1⟩ := by
  have hrel : fpRel cfg.sourceRoot p = some (p.drop cfg.sourceRoot.length) := by
    simp [fpRel, hpre]
  have hread2 : (fs.mkdirAll (cfg.targetRoot ++ p.drop cfg.sourceRoot.length).dropLast).read p =
      some src := hread
  simp only [copySingleFile, hrel, hread2]
  have hb0 : ¬ cfg.bufSize = 0 := by omega
  rw [if_neg hb0, hcan]
  have hpre2 : k - 1 = 0 ∨ (k - 1 - 1) * cfg.bufSize < src.length := by
    cases Nat.eq_or_lt_of_le hk1 with
    | inl h1 => exact Or.inl (by omega)
    | inr h2 =>
      right
      calc (k - 1 - 1) * cfg.bufSize ≤ (k - 1) * cfg.bufSize :=
            Nat.mul_le_mul_right _ (by omega)
        _ < src.length := hkm
  rw [copyContentLoop_cancel cfg.bufSize k hb (k - 1) 1 src [] (by omega) hpre2]
  simp [mirror]

end Copier

/-- C6: during the copy of a single file the cancellation flag is read
before each chunk; when the flag flips after `k` reads and the remaining
data outlasts the flip (`(k-1) * bufSize < src.length`), the file is
reported exactly once as failed with a `canceled` error, the aggregate
counters record one failure and no completion, and the partially written
destination file — the chunks copied before the flip — is left on disk
with no rollback or deletion. -/
theorem cancel_mid_file_partial_content (cfg : Copier.Config) (fs0 : Copier.FS)
    (p : SCU.Path) (src : List Nat) (k : Nat)
    (hb : 1 ≤ cfg.bufSize) (hcan : cfg.cancelAt = some k) (hk1 : 1 ≤ k)
    (hkm : (k - 1) * cfg.bufSize < src.length)
    (hpre : cfg.sourceRoot <+: p)
    (hsrc : fs0.read p = some src) :
    (Copier.runCopy cfg fs0 [p]).state.results =
        [⟨p, false, src.length, some Copier.CopyErr.canceled⟩] ∧
    (Copier.runCopy cfg fs0 [p]).state.progress.failedFiles = 1 ∧
    (Copier.runCopy cfg fs0 [p]).state.progress.completedFiles = 0 ∧
    (Copier.runCopy cfg fs0 [p]).state.fs.read (Copier.mirror cfg p) =
        some (src.take ((k - 1) * cfg.bufSize)) ∧
    (src.take ((k - 1) * cfg.bufSize)).length < src.length := by
  have hstate : (Copier.runCopy cfg fs0 [p]).state =
      Copier.stepFile cfg { Copier.startState cfg fs0 [p] with checks := 1 } p := by
    simp only [Copier.runCopy, List.isEmpty_cons, Bool.false_eq_true, if_false]
    rw [Copier.runFiles]
    have hf : SCU.flagRead cfg.cancelAt (Copier.startState cfg fs0 [p]).checks = false := by
      rw [hcan]
      simp only [SCU.flagRead, decide_eq_false_iff_not]
      have hchk : (Copier.startState cfg fs0 [p]).checks = 0 := rfl
      omega
    rw [hf]
    simp only [Bool.false_eq_true, if_false]
    rfl
  have hread : ({ Copier.startState cfg fs0 [p] with checks := 1 } : Copier.RunState).fs.read p =
      some src := by
    have : (Copier.ensureAllDirectories cfg fs0).read p = fs0.read p :=
      Copier.ensureAll_read cfg fs0 p
    rw [show ({ Copier.startState cfg fs0 [p] with checks := 1 } : Copier.RunState).fs =
        Copier.ensureAllDirectories cfg fs0 from rfl, this, hsrc]
  have hcs := Copier.copySingleFile_cancel cfg
    ({ Copier.startState cfg fs0 [p] with checks := 1 } : Copier.RunState).fs
    p src k hb hcan hk1 hkm hpre hread
  rw [hstate]
  simp only [Copier.stepFile, hcs]
  refine ⟨rfl, rfl, rfl, ?_, ?_⟩
  · exact Copier.read_write_self _ _ _
  · simp only [List.length_take]
    omega

/-- Configuration for the cancellation example: 2-byte buffer, flag
flipping after 2 reads. -/
def cfgC : Copier.Config := ⟨["s"], ["t"], 2, some 2⟩

/-- Filesystem for the cancellation example: one 4-byte file `s/g`. -/
def fsC : Copier.FS := ⟨[(["s", "g"], [1, 2, 3, 4])], [["s"]]⟩

/-- C6 witness: copying the 4-byte file with a 2-byte buffer under a
flag that flips after two reads leaves exactly the first chunk `[1, 2]`
at the destination and reports the file as failed with a `canceled`
error. -/
theorem cancel_mid_file_partial_content_witness :
    (Copier.runCopy cfgC fsC [["s", "g"]]).state.results =
        [⟨["s", "g"], false, 4, some Copier.CopyErr.canceled⟩] ∧
    (Copier.runCopy cfgC fsC [["s", "g"]]).state.progress.failedFiles = 1 ∧
    (Copier.runCopy cfgC fsC [["s", "g"]]).state.progress.completedFiles = 0 ∧
    (Copier.runCopy cfgC fsC [["s", "g"]]).state.fs.read ["t", "g"] = some [1, 2] ∧
    (2 : Nat) < 4 := by
  have h := cancel_mid_file_partial_content cfgC fsC ["s", "g"] [1, 2, 3, 4] 2
    (by decide) rfl (by decide) (by decide) (by decide)
    (by simp [fsC, Copier.FS.read, Copier.readFiles])
  refine ⟨h.1, h.2.1, h.2.2.1, ?_, by decide⟩
  have h4 := h.2.2.2.1
  simpa [Copier.mirror, cfgC] using h4

namespace Copier

open SCU

/-- When the roots are prefix-disjoint, a mirrored target path is never a
source-side path. -/
theorem mirror_ne_src (cfg : Config)
    (hd1 : ¬ cfg.sourceRoot <+: cfg.targetRoot)
    (hd2 : ¬ cfg.targetRoot <+: cfg.sourceRoot)
    (q x : Path) (hq : cfg.sourceRoot <+: q) : mirror cfg x ≠ q := by
  intro he
  have htq : cfg.targetRoot <+: q := by
    rw [← he]
    exact pfx_app _ _
  rcases pfx_or hq htq with h | h
  · exact hd1 h
  · exact hd2 h

/-- `mirror` is injective on paths below the source root. -/
theorem mirror_inj (cfg : Config) (p q : Path)
    (hp : cfg.sourceRoot <+: p) (hq : cfg.sourceRoot <+: q)
    (h : mirror cfg p = mirror cfg q) : p = q := by
  unfold mirror at h
  have h2 : p.drop cfg.sourceRoot.length = q.drop cfg.sourceRoot.length :=
    List.append_cancel_left h
  obtain ⟨u, hu⟩ := hp
  obtain ⟨v, hv⟩ := hq
  rw [← hu, ← hv, List.drop_left, List.drop_left] at h2
  rw [← hu, ← hv, h2]

/-- Full copy of one file when cancellation never fires: the destination
parent chain is created, the whole content is written to the mirror path
and the result reports success with the stat size. -/
theorem copySingleFile_none (cfg : Config) (fs : FS) (t : Nat) (p : Path) (c : List Nat)
    (hc : cfg.cancelAt = none)
    (hpre : cfg.sourceRoot <+: p)
    (hread : fs.read p = some c) :
    (copySingleFile cfg fs t p).fs =
      (fs.mkdirAll (mirror cfg p).dropLast).write (mirror cfg p) c ∧
    (copySingleFile cfg fs t p).res = ⟨p, true, c.length, none⟩ := by
  have hrel : fpRel cfg.sourceRoot p = some (p.drop cfg.sourceRoot.length) := by
    simp [fpRel, hpre]
  have hread2 : (fs.mkdirAll (cfg.targetRoot ++ p.drop cfg.sourceRoot.length).dropLast).read p =
      some c := hread
  simp only [copySingleFile, hrel, hread2, hc]
  obtain ⟨h1, h2⟩ := copyContentLoop_none
    (if cfg.bufSize = 0 then 1048576 else cfg.bufSize) c.length c le_rfl [] t
  refine ⟨?_, ?_⟩ <;> simp only [h1, h2, if_true, List.nil_append] <;> rfl

/-- Progress and filesystem effect of one worker iteration whose
`copySingleFile` succeeded. -/
theorem stepFile_success_fields (cfg : Config) (st : RunState) (p : Path) (c : List Nat)
    (hres : (copySingleFile cfg st.fs st.checks p).res = ⟨p, true, c.length, none⟩) :
    (stepFile cfg st p).progress.completedFiles = st.progress.completedFiles + 1 ∧
    (stepFile cfg st p).progress.failedFiles = st.progress.failedFiles ∧
    (stepFile cfg st p).progress.totalFiles = st.progress.totalFiles ∧
    (stepFile cfg st p).fs = (copySingleFile cfg st.fs st.checks p).fs := by
  have hsucc : (copySingleFile cfg st.fs st.checks p).res.success = true := by rw [hres]
  refine ⟨?_, ?_, ?_, rfl⟩ <;> simp only [stepFile, hsucc, if_true]

/-- Main induction for the round-trip claim: with no cancellation,
running the worker loop over a queue of distinct source-side files whose
contents are intact copies every one of them byte-identically to its
mirror path, changes no other file, and counts every file as completed
and none as failed. -/
theorem runFiles_copy_all (cfg : Config) (fs0 : FS)
    (hc : cfg.cancelAt = none)
    (hd1 : ¬ cfg.sourceRoot <+: cfg.targetRoot)
    (hd2 : ¬ cfg.targetRoot <+: cfg.sourceRoot) :
    ∀ (l : List Path) (st : RunState),
      l.Nodup →
      (∀ p ∈ l, cfg.sourceRoot <+: p) →
      (∀ p ∈ l, st.fs.read p = fs0.read p) →
      (∀ p ∈ l, (fs0.read p).isSome) →
      (∀ p ∈ l, (runFiles cfg st l).1.fs.read (mirror cfg p) = fs0.read p) ∧
      (∀ q : Path, (∀ p ∈ l, q ≠ mirror cfg p) →
          (runFiles cfg st l).1.fs.read q = st.fs.read q) ∧
      (runFiles cfg st l).1.progress.completedFiles =
        st.progress.completedFiles + l.length ∧
      (runFiles cfg st l).1.progress.failedFiles = st.progress.failedFiles ∧
      (runFiles cfg st l).1.progress.totalFiles = st.progress.totalFiles := by
  intro l
  induction l with
  | nil =>
    intro st _ _ _ _
    refine ⟨by simp, fun q _ => rfl, by simp [runFiles], rfl, rfl⟩
  | cons p ps ih =>
    intro st hnd hpre hsame hsome
    rw [runFiles]
    have hflag : flagRead cfg.cancelAt st.checks = false := by rw [hc]; rfl
    simp only [hflag, Bool.false_eq_true, if_false]
    have hsp : cfg.sourceRoot <+: p := hpre p (List.mem_cons_self p ps)
    obtain ⟨c, hcv⟩ := Option.isSome_iff_exists.mp (hsome p (List.mem_cons_self p ps))
    have hreadp : st.fs.read p = some c := by
      rw [hsame p (List.mem_cons_self p ps), hcv]
    obtain ⟨hfs1, hres1⟩ :=
      copySingleFile_none cfg st.fs (st.checks + 1) p c hc hsp hreadp
    have hres1n : (copySingleFile cfg ({ st with checks := st.checks + 1 } : RunState).fs
        ({ st with checks := st.checks + 1 } : RunState).checks p).res =
        ⟨p, true, c.length, none⟩ := hres1
    obtain ⟨hcf, hff, htf, hfse⟩ :=
      stepFile_success_fields cfg { st with checks := st.checks + 1 } p c hres1n
    have hcf2 : (stepFile cfg { st with checks := st.checks + 1 } p).progress.completedFiles =
        st.progress.completedFiles + 1 := hcf
    have hff2 : (stepFile cfg { st with checks := st.checks + 1 } p).progress.failedFiles =
        st.progress.failedFiles := hff
    have htf2 : (stepFile cfg { st with checks := st.checks + 1 } p).progress.totalFiles =
        st.progress.totalFiles := htf
    have hfs2 : (stepFile cfg { st with checks := st.checks + 1 } p).fs =
        (st.fs.mkdirAll (mirror cfg p).dropLast).write (mirror cfg p) c := by
      rw [hfse]
      exact hfs1
    have hrdm : (stepFile cfg { st with checks := st.checks + 1 } p).fs.read (mirror cfg p) =
        some c := by
      rw [hfs2]
      exact read_write_self _ _ _
    have hrdo : ∀ q : Path, q ≠ mirror cfg p →
        (stepFile cfg { st with checks := st.checks + 1 } p).fs.read q = st.fs.read q := by
      intro q hq
      rw [hfs2, read_write_other _ _ _ _ hq]
      exact read_mkdirAll _ _ _
    have hndtl := (List.nodup_cons.mp hnd).2
    have hnmem := (List.nodup_cons.mp hnd).1
    have hsame2 : ∀ r ∈ ps, (stepFile cfg { st with checks := st.checks + 1 } p).fs.read r =
        fs0.read r := by
      intro r hr
      rw [hrdo r (Ne.symm (mirror_ne_src cfg hd1 hd2 r p
        (hpre r (List.mem_cons_of_mem p hr))))]
      exact hsame r (List.mem_cons_of_mem p hr)
    obtain ⟨ih1, ih2, ih3, ih4, ih5⟩ := ih (stepFile cfg { st with checks := st.checks + 1 } p)
      hndtl (fun r hr => hpre r (List.mem_cons_of_mem p hr)) hsame2
      (fun r hr => hsome r (List.mem_cons_of_mem p hr))
    refine ⟨?_, ?_, ?_, ?_, ?_⟩
    · intro r hr
      rcases List.mem_cons.mp hr with he | hm
      · subst he
        rw [ih2 (mirror cfg r) ?hne, hrdm, hcv]
        case hne =>
          intro x hx hcontra
          exact hnmem ((mirror_inj cfg r x hsp (hpre x (List.mem_cons_of_mem r hx))
            hcontra) ▸ hx)
      · exact ih1 r hm
    · intro q hq
      rw [ih2 q (fun r hr => hq r (List.mem_cons_of_mem p hr)),
        hrdo q (hq p (List.mem_cons_self p ps))]
    · rw [ih3, hcf2, List.length_cons]
      omega
    · rw [ih4, hff2]
    · rw [ih5, htf2]

end Copier

/-- C1: a completed run over a file list produced by a scan of the
source root (every file below the root, each exactly once, all contents
readable), with cancellation never requested and prefix-disjoint roots,
copies every source file byte-identically to the mirrored relative path
under the target root, and the final progress satisfies
`completedFiles = totalFiles` and `failedFiles = 0`. -/
theorem copy_roundtrip_identity (cfg : Copier.Config) (fs0 : Copier.FS)
    (files : List SCU.Path)
    (hc : cfg.cancelAt = none)
    (hnd : files.Nodup)
    (hunder : ∀ p ∈ files, cfg.sourceRoot <+: p ∧ (fs0.read p).isSome)
    (hall : ∀ p : SCU.Path, cfg.sourceRoot <+: p → (fs0.read p).isSome → p ∈ files)
    (hd1 : ¬ cfg.sourceRoot <+: cfg.targetRoot)
    (hd2 : ¬ cfg.targetRoot <+: cfg.sourceRoot) :
    (∀ (p : SCU.Path) (c : List Nat), cfg.sourceRoot <+: p → fs0.read p = some c →
        (Copier.runCopy cfg fs0 files).state.fs.read
          (cfg.targetRoot ++ p.drop cfg.sourceRoot.length) = some c) ∧
    (Copier.runCopy cfg fs0 files).state.progress.completedFiles =
      (Copier.runCopy cfg fs0 files).state.progress.totalFiles ∧
    (Copier.runCopy cfg fs0 files).state.progress.failedFiles = 0 := by
  cases files with
  | nil =>
    refine ⟨?_, rfl, rfl⟩
    intro p c hpre hread
    exact absurd (hall p hpre (by rw [hread]; rfl)) (List.not_mem_nil p)
  | cons f fsRest =>
    have hsame : ∀ p ∈ f :: fsRest,
        (Copier.startState cfg fs0 (f :: fsRest)).fs.read p = fs0.read p :=
      fun p _ => Copier.ensureAll_read cfg fs0 p
    obtain ⟨h1, h2, h3, h4, h5⟩ := Copier.runFiles_copy_all cfg fs0 hc hd1 hd2 (f :: fsRest)
      (Copier.startState cfg fs0 (f :: fsRest)) hnd (fun p hp => (hunder p hp).1) hsame
      (fun p hp => (hunder p hp).2)
    rw [show (Copier.startState cfg fs0 (f :: fsRest)).progress.completedFiles = 0 from rfl]
      at h3
    rw [show (Copier.startState cfg fs0 (f :: fsRest)).progress.failedFiles = 0 from rfl]
      at h4
    rw [show (Copier.startState cfg fs0 (f :: fsRest)).progress.totalFiles =
        (f :: fsRest).length from rfl] at h5
    refine ⟨?_, ?_, ?_⟩
    · intro p c hpre hread
      have hmem : p ∈ f :: fsRest := hall p hpre (by rw [hread]; rfl)
      have hmir := h1 p hmem
      simp only [Copier.runCopy, List.isEmpty_cons, Bool.false_eq_true, if_false]
      rw [show Copier.mirror cfg p = cfg.targetRoot ++ p.drop cfg.sourceRoot.length
          from rfl] at hmir
      rw [hmir]
      exact hread
    · simp only [Copier.runCopy, List.isEmpty_cons, Bool.false_eq_true, if_false]
      rw [h3, h5]
      omega
    · simp only [Copier.runCopy, List.isEmpty_cons, Bool.false_eq_true, if_false]
      rw [h4]

/-- C1 witness: the one-file example run ends with `t/f` holding the
bytes of `s/f`, one completed file out of one, and no failure. -/
theorem copy_roundtrip_identity_witness :
    (Copier.runCopy cfgW fsW [["s", "f"]]).state.fs.read ["t", "f"] = some [7] ∧
    (Copier.runCopy cfgW fsW [["s", "f"]]).state.progress.completedFiles =
      (Copier.runCopy cfgW fsW [["s", "f"]]).state.progress.totalFiles ∧
    (Copier.runCopy cfgW fsW [["s", "f"]]).state.progress.failedFiles = 0 := by
  have hall : ∀ p : SCU.Path, cfgW.sourceRoot <+: p → (fsW.read p).isSome →
      p ∈ [(["s", "f"] : SCU.Path)] := by
    intro p hpre hsome
    by_cases he : (["s", "f"] : SCU.Path) = p
    · rw [← he]
      simp
    · exfalso
      rw [show fsW.read p = none by simp [fsW, Copier.FS.read, Copier.readFiles, he]]
        at hsome
      simp at hsome
  have h := copy_roundtrip_identity cfgW fsW [["s", "f"]] rfl (by simp)
    (by
      intro p hp
      rw [List.mem_singleton] at hp
      subst hp
      exact ⟨by decide, by decide⟩)
    hall (by decide) (by decide)
  refine ⟨?_, h.2.1, h.2.2⟩
  have h17 := h.1 ["s", "f"] [7] (by decide) (by decide)
  simpa [cfgW] using h17
